import Mathlib

/-!
Verification development for the toxicology-explorer client-side analytical
pipeline.  The TypeScript sources are shallowly embedded: JavaScript numbers
are modelled by `JsNum` (a finite rational, one of the two infinities, or
NaN), fallible lookups by `Option`, and the stateful pieces (the debounce
hook, the embedding loader commit) by explicit state passing.  Division on
finite values is exact rational division; this idealises IEEE rounding but
preserves every control-flow decision the theorems below are about.
-/

/-- Model of a JavaScript `number`: a finite value (idealised as an exact
rational), positive or negative infinity, or NaN. -/
inductive JsNum where
  | fin (q : ℚ)
  | posInf
  | negInf
  | nan
deriving DecidableEq

/-- JavaScript `a < b` (false whenever either side is NaN). -/
def jsLt : JsNum → JsNum → Bool
  | JsNum.fin a, JsNum.fin b => a < b
  | JsNum.fin _, JsNum.posInf => true
  | JsNum.negInf, JsNum.fin _ => true
  | JsNum.negInf, JsNum.posInf => true
  | _, _ => false

/-- JavaScript `a <= b` (false whenever either side is NaN). -/
def jsLe : JsNum → JsNum → Bool
  | JsNum.fin a, JsNum.fin b => a ≤ b
  | JsNum.fin _, JsNum.posInf => true
  | JsNum.negInf, JsNum.fin _ => true
  | JsNum.negInf, JsNum.posInf => true
  | JsNum.posInf, JsNum.posInf => true
  | JsNum.negInf, JsNum.negInf => true
  | _, _ => false

/-- JavaScript `Number.isFinite`. -/
def jsIsFinite : JsNum → Bool
  | JsNum.fin _ => true
  | _ => false

/-- JavaScript `Number.isNaN`. -/
def jsIsNaN : JsNum → Bool
  | JsNum.nan => true
  | _ => false

/-- The finite payload of a `JsNum`; only ever applied after a
`Number.isFinite` guard in the embedded code. -/
def jsToRat : JsNum → ℚ
  | JsNum.fin q => q
  | _ => 0

/-- The eight toxic endpoints of `TOXIC_ENDPOINT_PREFIXES` in
`src/utils/safetyMetrics.ts` (the primary bioactivity endpoint is not
among them). -/
inductive ToxicEndpoint where
  | cell_count
  | cyto_area
  | nuclei_size
  | vacuoles
  | mito_puncta
  | ros
  | mtt
  | ldh
deriving DecidableEq

/-- The list `TOXIC_ENDPOINT_PREFIXES`, in source order. -/
def TOXIC_ENDPOINTS : List ToxicEndpoint :=
  [ToxicEndpoint.cell_count, ToxicEndpoint.cyto_area, ToxicEndpoint.nuclei_size,
   ToxicEndpoint.vacuoles, ToxicEndpoint.mito_puncta, ToxicEndpoint.ros,
   ToxicEndpoint.mtt, ToxicEndpoint.ldh]

/-- The nine descriptor keys of `types/MetadataStats.ts`. -/
inductive DescriptorKey where
  | mw
  | logp
  | logd
  | tpsa
  | hbd
  | hba
  | fcsp3
  | qed_value
  | sas_score
deriving DecidableEq

/-- `Compound` from `types/Compound.ts`, restricted to the fields the
embedded functions actually read: the join key `name`, the nine numeric
molecular descriptors, the `doses` series string, and the nine per-endpoint
LD50 thresholds (eight toxic endpoints plus bioactivity).  The remaining
fields of the TypeScript interface (id, smiles/inchi, the per-endpoint
`*_mean_preds`/`*_std_preds`/`*_lower_bound`/`*_upper_bound`/`*_popt`
series, ld20/ld80 thresholds, split, failure) are never consulted by the
functions under verification and are elided.  All optional numeric fields
are `Option JsNum` (`none` = absent). -/
structure Compound where
  name : String := ""
  mw : Option JsNum := none
  logp : Option JsNum := none
  logd : Option JsNum := none
  tpsa : Option JsNum := none
  hbd : Option JsNum := none
  hba : Option JsNum := none
  fcsp3 : Option JsNum := none
  qed_value : Option JsNum := none
  sas_score : Option JsNum := none
  doses : Option String := none
  cell_count_ld50 : Option JsNum := none
  cyto_area_ld50 : Option JsNum := none
  nuclei_size_ld50 : Option JsNum := none
  vacuoles_ld50 : Option JsNum := none
  mito_puncta_ld50 : Option JsNum := none
  ros_ld50 : Option JsNum := none
  mtt_ld50 : Option JsNum := none
  ldh_ld50 : Option JsNum := none
  bioactivity_ld50 : Option JsNum := none
deriving DecidableEq

/-- `compound[`${prefix}_ld50`]` — the raw LD50 field for a toxic endpoint. -/
def getLd50Field (c : Compound) : ToxicEndpoint → Option JsNum
  | ToxicEndpoint.cell_count => c.cell_count_ld50
  | ToxicEndpoint.cyto_area => c.cyto_area_ld50
  | ToxicEndpoint.nuclei_size => c.nuclei_size_ld50
  | ToxicEndpoint.vacuoles => c.vacuoles_ld50
  | ToxicEndpoint.mito_puncta => c.mito_puncta_ld50
  | ToxicEndpoint.ros => c.ros_ld50
  | ToxicEndpoint.mtt => c.mtt_ld50
  | ToxicEndpoint.ldh => c.ldh_ld50

/-- `compound[key]` — descriptor access used by the filter pipeline and the
histogram derivation. -/
def getDescriptor (c : Compound) : DescriptorKey → Option JsNum
  | DescriptorKey.mw => c.mw
  | DescriptorKey.logp => c.logp
  | DescriptorKey.logd => c.logd
  | DescriptorKey.tpsa => c.tpsa
  | DescriptorKey.hbd => c.hbd
  | DescriptorKey.hba => c.hba
  | DescriptorKey.fcsp3 => c.fcsp3
  | DescriptorKey.qed_value => c.qed_value
  | DescriptorKey.sas_score => c.sas_score

/-- `isValidLdValue` from `src/utils/safetyMetrics.ts`: the value is a
number (`none` models `undefined`/non-number), finite (the `fin`
constructor), strictly positive, and not the sentinel `10000`. -/
def isValidLdValue : Option JsNum → Bool
  | some (JsNum.fin q) => decide (0 < q) && decide (q ≠ 10000)
  | _ => false

/-- `getEndpointLd50` from `src/utils/safetyMetrics.ts`. -/
def getEndpointLd50 (c : Compound) (e : ToxicEndpoint) : Option ℚ :=
  match getLd50Field c e with
  | some (JsNum.fin q) => if 0 < q ∧ q ≠ 10000 then some q else none
  | _ => none

/-- `calculateEndpointMargin` from `src/utils/safetyMetrics.ts`:
null when the dose is non-finite or `<= 0`, null when the LD50 is invalid,
otherwise `ld50 / therapeuticDose`.  The result of the division of two
finite numbers with a positive divisor is always finite, hence `Option ℚ`. -/
def calculateEndpointMargin (c : Compound) (e : ToxicEndpoint)
    (therapeuticDose : JsNum) : Option ℚ :=
  if !(jsIsFinite therapeuticDose) || jsLe therapeuticDose (JsNum.fin 0) then
    none
  else
    match getEndpointLd50 c e with
    | none => none
    | some ld50 => some (ld50 / jsToRat therapeuticDose)

/-- `calculateAggregateMargin` from `src/utils/safetyMetrics.ts`: fold over
the eight toxic endpoints keeping the least non-null endpoint margin. -/
def calculateAggregateMargin (c : Compound) (therapeuticDose : JsNum) :
    Option ℚ :=
  TOXIC_ENDPOINTS.foldl
    (fun minMargin e =>
      match calculateEndpointMargin c e therapeuticDose with
      | none => minMargin
      | some margin =>
        match minMargin with
        | none => some margin
        | some current =>
          if margin < current then some margin else some current)
    none

/-- The four classification levels of `classifyMarginLevel`. -/
inductive MarginLevel where
  | BROAD
  | MODERATE
  | NARROW
  | ALERT
deriving DecidableEq

/-- `classifyMarginLevel` from `src/utils/safetyMetrics.ts`. -/
def classifyMarginLevel (margin : Option JsNum) : MarginLevel :=
  match margin with
  | none => MarginLevel.ALERT
  | some m =>
    if !(jsIsFinite m) then MarginLevel.ALERT
    else if jsLe (JsNum.fin 10) m then MarginLevel.BROAD
    else if jsLe (JsNum.fin 3) m then MarginLevel.MODERATE
    else if jsLe (JsNum.fin 1) m then MarginLevel.NARROW
    else MarginLevel.ALERT

/-- Spec-side definition for the aggregate-margin claim: the minimum of a
list of rationals (`none` on the empty list), written as plain structural
recursion so it can be compared with the source's fold. -/
def minOfList : List ℚ → Option ℚ
  | [] => none
  | x :: xs =>
    match minOfList xs with
    | none => some x
    | some m => some (min x m)

/-- Merging two optional minima. -/
def optMin : Option ℚ → Option ℚ → Option ℚ
  | none, b => b
  | some a, none => some a
  | some a, some b => some (min a b)

lemma minOfList_cons (x : ℚ) (xs : List ℚ) :
    minOfList (x :: xs) = optMin (some x) (minOfList xs) := by
  cases h : minOfList xs <;> simp [minOfList, h, optMin]

lemma minOfList_eq_none_iff (l : List ℚ) : minOfList l = none ↔ l = [] := by
  cases l with
  | nil => simp [minOfList]
  | cons x xs =>
    rw [minOfList_cons]
    cases minOfList xs <;> simp [optMin]

lemma minOfList_mem : ∀ {l : List ℚ} {m : ℚ}, minOfList l = some m → m ∈ l := by
  intro l
  induction l with
  | nil => intro m h; simp [minOfList] at h
  | cons x xs ih =>
    intro m h
    rw [minOfList_cons] at h
    cases hxs : minOfList xs with
    | none =>
      rw [hxs] at h
      simp only [optMin, Option.some_inj] at h
      simp [← h]
    | some m' =>
      rw [hxs] at h
      simp only [optMin, Option.some_inj] at h
      rcases le_total x m' with hle | hle
      · rw [min_eq_left hle] at h
        simp [← h]
      · rw [min_eq_right hle] at h
        exact List.mem_cons_of_mem x (h ▸ ih hxs)

lemma minOfList_le :
    ∀ {l : List ℚ} {m : ℚ}, minOfList l = some m → ∀ x ∈ l, m ≤ x := by
  intro l
  induction l with
  | nil => intro m h; simp
  | cons x xs ih =>
    intro m h
    rw [minOfList_cons] at h
    cases hxs : minOfList xs with
    | none =>
      rw [hxs] at h
      simp only [optMin, Option.some_inj] at h
      rw [minOfList_eq_none_iff] at hxs
      subst hxs
      simp [← h]
    | some m' =>
      rw [hxs] at h
      simp only [optMin, Option.some_inj] at h
      intro y hy
      rcases List.mem_cons.mp hy with rfl | hmem
      · rw [← h]; exact min_le_left _ _
      · rw [← h]
        exact le_trans (min_le_right _ _) (ih hxs y hmem)

lemma optMin_none_right (a : Option ℚ) : optMin a none = a := by
  cases a <;> rfl

lemma optMin_comm (a b : Option ℚ) : optMin a b = optMin b a := by
  cases a <;> cases b <;> simp [optMin, min_comm]

lemma optMin_assoc (a b c : Option ℚ) :
    optMin (optMin a b) c = optMin a (optMin b c) := by
  cases a <;> cases b <;> cases c <;> simp [optMin, min_assoc]

lemma ifLt_eq_min (a b : ℚ) :
    (if a < b then some a else some b) = some (min a b) := by
  by_cases h : a < b
  · simp [h, min_eq_left h.le]
  · simp [h, min_eq_right (not_lt.mp h)]

lemma foldl_minStep_eq (l : List (Option ℚ)) (acc : Option ℚ) :
    l.foldl
      (fun minMargin margin? =>
        match margin? with
        | none => minMargin
        | some margin =>
          match minMargin with
          | none => some margin
          | some current =>
            if margin < current then some margin else some current)
      acc = optMin acc (minOfList (l.filterMap id)) := by
  induction l generalizing acc with
  | nil => simp [optMin_none_right, minOfList]
  | cons x xs ih =>
    cases x with
    | none => simp [List.foldl_cons, ih]
    | some margin =>
      have hstep :
          (match some margin with
            | none => acc
            | some m =>
              match acc with
              | none => some m
              | some current =>
                if m < current then some m else some current) =
          optMin (some margin) acc := by
        cases acc with
        | none => rfl
        | some current => simpa [optMin] using ifLt_eq_min margin current
      have hfm : List.filterMap id (some margin :: xs) =
          margin :: List.filterMap id xs := by simp
      simp only [List.foldl_cons]
      rw [ih, hfm, minOfList_cons, hstep, optMin_comm (some margin) acc,
        optMin_assoc]

/-- The non-null endpoint margins of a compound at a dose, in endpoint
order (spec side: "the minimum of the non-null endpoint margins taken over
exactly the fixed eight toxic endpoints"). -/
def endpointMarginList (c : Compound) (dose : JsNum) : List ℚ :=
  (TOXIC_ENDPOINTS.map (fun e => calculateEndpointMargin c e dose)).filterMap id

lemma aggregate_foldl_eq (c : Compound) (dose : JsNum) :
    ∀ (l : List ToxicEndpoint) (acc : Option ℚ),
      l.foldl
        (fun minMargin e =>
          match calculateEndpointMargin c e dose with
          | none => minMargin
          | some margin =>
            match minMargin with
            | none => some margin
            | some current =>
              if margin < current then some margin else some current)
        acc =
      optMin acc
        (minOfList ((l.map
          (fun e => calculateEndpointMargin c e dose)).filterMap id)) := by
  intro l
  induction l with
  | nil => intro acc; simp [optMin_none_right, minOfList]
  | cons e es ih =>
    intro acc
    simp only [List.foldl_cons, List.map_cons]
    cases hm : calculateEndpointMargin c e dose with
    | none => simp [ih, hm]
    | some margin =>
      have hstep :
          (match acc with
            | none => some margin
            | some current =>
              if margin < current then some margin else some current) =
          optMin (some margin) acc := by
        cases acc with
        | none => rfl
        | some current => simpa [optMin] using ifLt_eq_min margin current
      have hfm :
          List.filterMap id (some margin ::
            es.map (fun e => calculateEndpointMargin c e dose)) =
          margin :: List.filterMap id
            (es.map (fun e => calculateEndpointMargin c e dose)) := by simp
      rw [ih, hfm, minOfList_cons, hstep, optMin_comm (some margin) acc,
        optMin_assoc]

/-- The example instance from the spec's testable properties: LD50s
`{cell_count: 100, ros: 50}`, every other endpoint LD50 absent. -/
def marginExample : Compound :=
  { name := "example"
    cell_count_ld50 := some (JsNum.fin 100)
    ros_ld50 := some (JsNum.fin 50) }

/-- A compound whose only LD50 belongs to the bioactivity endpoint, which
the aggregate must ignore. -/
def bioactivityOnlyExample : Compound :=
  { name := "bio"
    bioactivity_ld50 := some (JsNum.fin 100) }

/-- C1: `calculateEndpointMargin` returns `ld50 / dose` exactly when the
dose is a finite positive number and the endpoint's LD50 field holds a
finite positive number different from the sentinel `10000`; in every other
case it returns null. -/
theorem calculateEndpointMargin_spec (c : Compound) (e : ToxicEndpoint)
    (dose : JsNum) (r : ℚ) :
    calculateEndpointMargin c e dose = some r ↔
      ∃ d ld : ℚ, dose = JsNum.fin d ∧ 0 < d ∧
        getLd50Field c e = some (JsNum.fin ld) ∧ 0 < ld ∧ ld ≠ 10000 ∧
        r = ld / d := by
  cases dose with
  | fin d =>
    by_cases hd : d ≤ 0
    · simp [calculateEndpointMargin, jsIsFinite, jsLe, hd, not_lt.mpr hd]
    · cases hfield : getLd50Field c e with
      | none =>
        simp [calculateEndpointMargin, getEndpointLd50, jsIsFinite, jsLe,
          hd, hfield]
      | some v =>
        cases v with
        | fin q =>
          by_cases hq : 0 < q ∧ q ≠ 10000
          · simp [calculateEndpointMargin, getEndpointLd50, jsIsFinite, jsLe,
              jsToRat, hd, hfield, hq, hq.1, hq.2, not_le.mp hd, eq_comm]
          · have hnone :
                calculateEndpointMargin c e (JsNum.fin d) = none := by
              simp [calculateEndpointMargin, getEndpointLd50, jsIsFinite,
                jsLe, hd, hfield, hq]
            rw [hnone]
            constructor
            · intro h; simp at h
            · rintro ⟨d', ld, hdd, hdpos, hf, hldpos, hldne, -⟩
              injection hf with h1
              injection h1 with h2
              subst h2
              exact absurd ⟨hldpos, hldne⟩ hq
        | posInf =>
          simp [calculateEndpointMargin, getEndpointLd50, jsIsFinite, jsLe,
            hd, hfield]
        | negInf =>
          simp [calculateEndpointMargin, getEndpointLd50, jsIsFinite, jsLe,
            hd, hfield]
        | nan =>
          simp [calculateEndpointMargin, getEndpointLd50, jsIsFinite, jsLe,
            hd, hfield]
  | posInf => simp [calculateEndpointMargin, jsIsFinite]
  | negInf => simp [calculateEndpointMargin, jsIsFinite]
  | nan => simp [calculateEndpointMargin, jsIsFinite]

/-- C2: the aggregate margin is the minimum of the non-null endpoint
margins over exactly the eight toxic endpoints (the bioactivity endpoint
is excluded), and it is null iff every one of those margins is null.
Includes the spec's example instance: cell_count LD50 = 100, ros LD50 = 50
at dose 10 gives aggregate 5, and a compound carrying only a bioactivity
LD50 has a null aggregate. -/
theorem calculateAggregateMargin_spec (c : Compound) (dose : JsNum) :
    calculateAggregateMargin c dose = minOfList (endpointMarginList c dose) ∧
    (∀ m : ℚ, calculateAggregateMargin c dose = some m →
      m ∈ endpointMarginList c dose ∧
      ∀ x ∈ endpointMarginList c dose, m ≤ x) ∧
    (calculateAggregateMargin c dose = none ↔
      ∀ e ∈ TOXIC_ENDPOINTS, calculateEndpointMargin c e dose = none) ∧
    calculateAggregateMargin marginExample (JsNum.fin 10) = some 5 ∧
    calculateAggregateMargin bioactivityOnlyExample (JsNum.fin 10) = none := by
  have h1 : calculateAggregateMargin c dose =
      minOfList (endpointMarginList c dose) := by
    rw [calculateAggregateMargin, aggregate_foldl_eq]
    rfl
  refine ⟨h1, ?_, ?_, ?_, ?_⟩
  · intro m hm
    rw [h1] at hm
    exact ⟨minOfList_mem hm, minOfList_le hm⟩
  · rw [h1, minOfList_eq_none_iff, endpointMarginList]
    rw [List.filterMap_eq_nil_iff]
    simp
  · norm_num [calculateAggregateMargin, TOXIC_ENDPOINTS,
      calculateEndpointMargin, getEndpointLd50, getLd50Field, marginExample,
      jsIsFinite, jsLe, jsToRat]
  · norm_num [calculateAggregateMargin, TOXIC_ENDPOINTS,
      calculateEndpointMargin, getEndpointLd50, getLd50Field,
      bioactivityOnlyExample, jsIsFinite, jsLe, jsToRat]

/-- C2 witness: the minimality clause applied to the spec's example
instance at dose 10. -/
theorem calculateAggregateMargin_spec_witness :
    5 ∈ endpointMarginList marginExample (JsNum.fin 10) ∧
    ∀ x ∈ endpointMarginList marginExample (JsNum.fin 10), 5 ≤ x :=
  (calculateAggregateMargin_spec marginExample (JsNum.fin 10)).2.1 5
    (by norm_num [calculateAggregateMargin, TOXIC_ENDPOINTS,
      calculateEndpointMargin, getEndpointLd50, getLd50Field, marginExample,
      jsIsFinite, jsLe, jsToRat])

/-- C7: `classifyMarginLevel` is BROAD for margins at least 10, MODERATE
for margins in [3, 10), NARROW for margins in [1, 3), and ALERT below 1 or
when the margin is null or non-finite; in particular 15 is BROAD, 3 is
MODERATE, 1 is NARROW, 0.5 is ALERT, null is ALERT. -/
theorem classifyMarginLevel_spec :
    (∀ q : ℚ, classifyMarginLevel (some (JsNum.fin q)) =
      (if 10 ≤ q then MarginLevel.BROAD
       else if 3 ≤ q then MarginLevel.MODERATE
       else if 1 ≤ q then MarginLevel.NARROW
       else MarginLevel.ALERT)) ∧
    classifyMarginLevel none = MarginLevel.ALERT ∧
    (∀ m : JsNum, jsIsFinite m = false →
      classifyMarginLevel (some m) = MarginLevel.ALERT) ∧
    classifyMarginLevel (some (JsNum.fin 15)) = MarginLevel.BROAD ∧
    classifyMarginLevel (some (JsNum.fin 3)) = MarginLevel.MODERATE ∧
    classifyMarginLevel (some (JsNum.fin 1)) = MarginLevel.NARROW ∧
    classifyMarginLevel (some (JsNum.fin (1/2))) = MarginLevel.ALERT := by
  refine ⟨?_, by decide, ?_, by decide, by decide, by decide,
    by norm_num [classifyMarginLevel, jsIsFinite, jsLe]⟩
  · intro q
    simp [classifyMarginLevel, jsIsFinite, jsLe]
  · intro m hm
    cases m with
    | fin q => simp [jsIsFinite] at hm
    | posInf => simp [classifyMarginLevel, jsIsFinite]
    | negInf => simp [classifyMarginLevel, jsIsFinite]
    | nan => simp [classifyMarginLevel, jsIsFinite]

/-- C7 witness: the piecewise clause at 15 and the non-finite clause at
NaN. -/
theorem classifyMarginLevel_spec_witness :
    classifyMarginLevel (some (JsNum.fin 15)) =
      (if 10 ≤ (15 : ℚ) then MarginLevel.BROAD
       else if 3 ≤ (15 : ℚ) then MarginLevel.MODERATE
       else if 1 ≤ (15 : ℚ) then MarginLevel.NARROW
       else MarginLevel.ALERT) ∧
    classifyMarginLevel (some JsNum.nan) = MarginLevel.ALERT :=
  ⟨classifyMarginLevel_spec.1 15,
   classifyMarginLevel_spec.2.2.1 JsNum.nan (by decide)⟩

/-!
The string layer.  `Number(string)` is a JavaScript builtin: it is modelled
below on ASCII input — optional surrounding whitespace, the empty string
mapping to 0, an optional sign followed by `Infinity` or a decimal literal
(digits, optional fraction, optional exponent), and the unsigned
`0x`/`0o`/`0b` radix literals; every other string is NaN.  All string
functions work over `List Char`.
-/

/-- ASCII whitespace as matched by the JavaScript `\s` class and `trim`. -/
def jsWhitespaceChar (c : Char) : Bool :=
  c = ' ' ∨ c = '\t' ∨ c = '\n' ∨ c = '\r' ∨ c = '\x0b' ∨ c = '\x0c'

/-- `String.prototype.trim` on a character list. -/
def trimChars (cs : List Char) : List Char :=
  ((cs.dropWhile jsWhitespaceChar).reverse.dropWhile jsWhitespaceChar).reverse

/-- The natural number denoted by a list of decimal digits. -/
def digitsToNat (ds : List Char) : ℕ :=
  ds.foldl (fun a c => a * 10 + (c.toNat - 48)) 0

/-- `10 ^ e` for an integer exponent. -/
def tenPow (e : ℤ) : ℚ :=
  if 0 ≤ e then ((10 : ℚ) ^ e.toNat) else 1 / (10 : ℚ) ^ (-e).toNat

/-- Value of a decimal literal with integer digits `ip`, fraction digits
`fp`, and exponent `e`. -/
def decimalValue (ip fp : List Char) (e : ℤ) : ℚ :=
  (digitsToNat (ip ++ fp) : ℚ) * tenPow (e - fp.length)

/-- Parse the exponent tail of a decimal literal (empty means exponent 0;
otherwise `e`/`E`, an optional sign, and at least one digit). -/
def parseExpPart : List Char → Option ℤ
  | [] => some 0
  | c :: rest =>
    if c = 'e' ∨ c = 'E' then
      match rest with
      | '+' :: ds =>
        if ds ≠ [] ∧ ds.all Char.isDigit then some ((digitsToNat ds : ℤ))
        else none
      | '-' :: ds =>
        if ds ≠ [] ∧ ds.all Char.isDigit then some (-(digitsToNat ds : ℤ))
        else none
      | ds =>
        if ds ≠ [] ∧ ds.all Char.isDigit then some ((digitsToNat ds : ℤ))
        else none
    else none

/-- Parse an unsigned decimal literal: `digits [. digits] [exp]` or
`. digits [exp]`, requiring at least one digit overall. -/
def parseDecimalChars (cs : List Char) : Option ℚ :=
  let ip := cs.takeWhile Char.isDigit
  let rest := cs.dropWhile Char.isDigit
  match rest with
  | '.' :: rest2 =>
    let fp := rest2.takeWhile Char.isDigit
    let rest3 := rest2.dropWhile Char.isDigit
    if ip = [] ∧ fp = [] then none
    else (parseExpPart rest3).map (fun e => decimalValue ip fp e)
  | _ =>
    if ip = [] then none
    else (parseExpPart rest).map (fun e => decimalValue ip [] e)

/-- Hexadecimal digit value. -/
def hexDigitVal (c : Char) : Option ℕ :=
  if '0' ≤ c ∧ c ≤ '9' then some (c.toNat - 48)
  else if 'a' ≤ c ∧ c ≤ 'f' then some (c.toNat - 87)
  else if 'A' ≤ c ∧ c ≤ 'F' then some (c.toNat - 55)
  else none

/-- Digit value bounded by a radix. -/
def radixDigitVal (base : ℕ) (c : Char) : Option ℕ :=
  match hexDigitVal c with
  | some v => if v < base then some v else none
  | none => none

/-- Parse an unsigned radix literal body (at least one digit, all in
range). -/
def parseRadixChars (base : ℕ) (ds : List Char) : Option ℚ :=
  if ds = [] then none
  else
    (ds.foldl
      (fun acc c =>
        match acc, radixDigitVal base c with
        | some a, some v => some (a * base + v)
        | _, _ => none)
      (some 0)).map (fun n => (n : ℚ))

/-- Signed decimal-or-Infinity branch of `Number(string)`. -/
def jsDecimalOrNaN (t : List Char) : JsNum :=
  let sgn : ℚ := match t with
    | '-' :: _ => -1
    | _ => 1
  let body : List Char := match t with
    | '+' :: r => r
    | '-' :: r => r
    | r => r
  if body = "Infinity".toList then
    (if sgn = 1 then JsNum.posInf else JsNum.negInf)
  else
    match parseDecimalChars body with
    | some q => JsNum.fin (sgn * q)
    | none => JsNum.nan

/-- Model of the JavaScript `Number(string)` builtin on a character list. -/
def jsStringToNum (cs : List Char) : JsNum :=
  match trimChars cs with
  | [] => JsNum.fin 0
  | '0' :: x :: rest =>
    if x = 'x' ∨ x = 'X' then
      match parseRadixChars 16 rest with
      | some q => JsNum.fin q
      | none => JsNum.nan
    else if x = 'o' ∨ x = 'O' then
      match parseRadixChars 8 rest with
      | some q => JsNum.fin q
      | none => JsNum.nan
    else if x = 'b' ∨ x = 'B' then
      match parseRadixChars 2 rest with
      | some q => JsNum.fin q
      | none => JsNum.nan
    else jsDecimalOrNaN (trimChars cs)
  | _ => jsDecimalOrNaN (trimChars cs)

/-- The maximal nonempty runs of non-whitespace characters: exactly what
`.trim().split(/\s+/).filter(Boolean)` produces. -/
def wsTokens (cs : List Char) : List (List Char) :=
  (cs.foldr
    (fun c acc =>
      if jsWhitespaceChar c then [] :: acc
      else
        match acc with
        | t :: rest => (c :: t) :: rest
        | [] => [[c]])
    [[]]).filter (fun t => t ≠ [])

/-- The token pipeline of `parseNumericArrayString` in
`src/utils/parsing.ts`: brackets and commas are replaced by spaces, then
the remainder is trimmed, split on whitespace runs, and empty tokens are
dropped. -/
def numericTokens (s : String) : List (List Char) :=
  wsTokens (s.toList.map
    (fun c => if c = '[' ∨ c = ']' ∨ c = ',' then ' ' else c))

/-- `parseNumericArrayString` from `src/utils/parsing.ts` (`none` input
models an `undefined` argument; `Number.isNaN` failures are dropped
per-token; zero surviving values gives null). -/
def parseNumericArrayString (input : Option String) : Option (List JsNum) :=
  match input with
  | none => none
  | some s =>
    if s = "" then none
    else
      let values :=
        ((numericTokens s).map jsStringToNum).filter (fun v => !(jsIsNaN v))
      if 0 < values.length then some values else none

/-- An embedding base point (`EmbeddingPointBase` in
`src/components/CompoundsViewer.tsx`); the x/y fields parsed as finite
numbers. -/
structure EmbeddingPointBase where
  id : String
  x : ℚ
  y : ℚ
deriving DecidableEq

/-- `String.prototype.split(sep)` on a character list: split at every
occurrence of `sep`, keeping empty segments. -/
def splitOnChar (sep : Char) (cs : List Char) : List (List Char) :=
  cs.foldr
    (fun c acc =>
      if c = sep then [] :: acc
      else
        match acc with
        | t :: rest => (c :: t) :: rest
        | [] => [[c]])
    [[]]

/-- The trimmed nonempty lines of a text:
`text.split(/\r?\n/).map(trim).filter(Boolean)`.  Splitting at `'\n'` and
then trimming is equivalent to the regular-expression split: a `\r`
immediately before a `\n` ends up trailing its segment and is removed by
`trim`, and a lone `\r` splits in neither version. -/
def nonemptyLines (s : String) : List (List Char) :=
  ((splitOnChar '\n' s.toList).map trimChars).filter (fun l => l ≠ [])

/-- The per-row body of the `parseEmbeddingCsv` loop: split the row on
commas, trim the first field, parse fields 1 and 2 with `Number` (a
missing field is NaN, like `Number(undefined)`), drop the row unless both
coordinates are finite, and use the row's own first field as the id when
it is nonempty, the positional fallback id otherwise. -/
def rowToPoint (row : List Char) (fallbackId : String) :
    Option EmbeddingPointBase :=
  let segments := splitOnChar ',' row
  let rawId := trimChars (segments.headD [])
  let xValue := match segments.get? 1 with
    | some seg => jsStringToNum seg
    | none => JsNum.nan
  let yValue := match segments.get? 2 with
    | some seg => jsStringToNum seg
    | none => JsNum.nan
  match xValue, yValue with
  | JsNum.fin xq, JsNum.fin yq =>
    some { id := if rawId ≠ [] then String.mk rawId else fallbackId,
           x := xq, y := yq }
  | _, _ => none

/-- The indexed loop of `parseEmbeddingCsv`
(`for index in [0:min(body.length, ids.length)]`): simultaneous recursion
over rows and positional ids, stopping at the shorter list. -/
def buildEmbeddingPoints : List (List Char) → List String →
    List EmbeddingPointBase
  | row :: rows, fallbackId :: restIds =>
    (match rowToPoint row fallbackId with
     | some p => p :: buildEmbeddingPoints rows restIds
     | none => buildEmbeddingPoints rows restIds)
  | _, _ => []

/-- `parseEmbeddingCsv` from `src/components/CompoundsViewer.tsx`. -/
def parseEmbeddingCsv (csvText : String) (ids : List String) :
    List EmbeddingPointBase :=
  let lines := nonemptyLines csvText
  if lines.length ≤ 1 then []
  else buildEmbeddingPoints (lines.drop 1) ids

lemma buildEmbeddingPoints_eq :
    ∀ (rows : List (List Char)) (ids : List String),
      buildEmbeddingPoints rows ids =
        (rows.zip ids).filterMap (fun rf => rowToPoint rf.1 rf.2) := by
  intro rows
  induction rows with
  | nil => intro ids; simp [buildEmbeddingPoints]
  | cons row rest ih =>
    intro ids
    cases ids with
    | nil => simp [buildEmbeddingPoints]
    | cons i is =>
      simp only [buildEmbeddingPoints, List.zip_cons_cons,
        List.filterMap_cons, ih]
      cases rowToPoint row i <;> simp

lemma jsStringToNum_d1 : jsStringToNum ['1'] = JsNum.fin 1 := by
  have h : digitsToNat ['1'] = 1 := by decide
  calc jsStringToNum ['1'] = JsNum.fin (1 * decimalValue ['1'] [] 0) := rfl
    _ = JsNum.fin 1 := by norm_num [decimalValue, h, tenPow]

lemma jsStringToNum_d2 : jsStringToNum ['2'] = JsNum.fin 2 := by
  have h : digitsToNat ['2'] = 2 := by decide
  calc jsStringToNum ['2'] = JsNum.fin (1 * decimalValue ['2'] [] 0) := rfl
    _ = JsNum.fin 2 := by norm_num [decimalValue, h, tenPow]

lemma jsStringToNum_d3 : jsStringToNum ['3'] = JsNum.fin 3 := by
  have h : digitsToNat ['3'] = 3 := by decide
  calc jsStringToNum ['3'] = JsNum.fin (1 * decimalValue ['3'] [] 0) := rfl
    _ = JsNum.fin 3 := by norm_num [decimalValue, h, tenPow]

lemma jsStringToNum_d4 : jsStringToNum ['4'] = JsNum.fin 4 := by
  have h : digitsToNat ['4'] = 4 := by decide
  calc jsStringToNum ['4'] = JsNum.fin (1 * decimalValue ['4'] [] 0) := rfl
    _ = JsNum.fin 4 := by norm_num [decimalValue, h, tenPow]

/-- C5: `parseNumericArrayString` strips brackets, splits uniformly on
commas and whitespace, converts each token with `Number`, keeps exactly
the tokens whose conversion is not NaN in input order, and returns null
exactly when the input is absent, empty, or yields no surviving value;
in particular "[1, 2, 3]" gives [1,2,3], "1 2 x 4" gives [1,2,4], and an
empty or absent input gives null. -/
theorem parseNumericArrayString_spec :
    (∀ s : String, parseNumericArrayString (some s) = none ↔
      (s = "" ∨
        ((numericTokens s).map jsStringToNum).filter
          (fun v => !(jsIsNaN v)) = [])) ∧
    parseNumericArrayString none = none ∧
    (∀ (s : String) (vs : List JsNum),
      parseNumericArrayString (some s) = some vs →
      vs = ((numericTokens s).map jsStringToNum).filter
        (fun v => !(jsIsNaN v))) ∧
    parseNumericArrayString (some "[1, 2, 3]") =
      some [JsNum.fin 1, JsNum.fin 2, JsNum.fin 3] ∧
    parseNumericArrayString (some "1 2 x 4") =
      some [JsNum.fin 1, JsNum.fin 2, JsNum.fin 4] ∧
    parseNumericArrayString (some "") = none := by
  refine ⟨?_, rfl, ?_, ?_, ?_, by decide⟩
  · intro s
    by_cases hs : s = ""
    · simp [parseNumericArrayString, hs]
    · simp only [parseNumericArrayString, if_neg hs]
      by_cases hv :
          0 < (((numericTokens s).map jsStringToNum).filter
            (fun v => !(jsIsNaN v))).length
      · simp only [if_pos hv]
        constructor
        · intro h; simp at h
        · intro h
          rcases h with h | h
          · exact absurd h hs
          · rw [h] at hv; simp at hv
      · simp only [if_neg hv]
        have hnil :
            ((numericTokens s).map jsStringToNum).filter
              (fun v => !(jsIsNaN v)) = [] := by
          rcases Nat.eq_zero_or_pos
              ((((numericTokens s).map jsStringToNum).filter
                (fun v => !(jsIsNaN v))).length) with h0 | hpos
          · exact List.length_eq_zero.mp h0
          · exact absurd hpos hv
        simp [hnil]
  · intro s vs h
    by_cases hs : s = ""
    · rw [hs] at h; simp [parseNumericArrayString] at h
    · simp only [parseNumericArrayString, if_neg hs] at h
      by_cases hv :
          0 < (((numericTokens s).map jsStringToNum).filter
            (fun v => !(jsIsNaN v))).length
      · rw [if_pos hv] at h
        exact (Option.some_inj.mp h).symm
      · rw [if_neg hv] at h
        simp at h
  · have key : parseNumericArrayString (some "[1, 2, 3]") =
        some [jsStringToNum ['1'], jsStringToNum ['2'], jsStringToNum ['3']] := by
      have ht : numericTokens "[1, 2, 3]" = [['1'], ['2'], ['3']] := by decide
      have hx1 : jsIsNaN (jsStringToNum ['1']) = false := by
        rw [jsStringToNum_d1]; rfl
      have hx2 : jsIsNaN (jsStringToNum ['2']) = false := by
        rw [jsStringToNum_d2]; rfl
      have hx3 : jsIsNaN (jsStringToNum ['3']) = false := by
        rw [jsStringToNum_d3]; rfl
      simp [parseNumericArrayString, ht, hx1, hx2, hx3]
    rw [key, jsStringToNum_d1, jsStringToNum_d2, jsStringToNum_d3]
  · have key : parseNumericArrayString (some "1 2 x 4") =
        some [jsStringToNum ['1'], jsStringToNum ['2'], jsStringToNum ['4']] := by
      have ht : numericTokens "1 2 x 4" = [['1'], ['2'], ['x'], ['4']] := by
        decide
      have hx1 : jsIsNaN (jsStringToNum ['1']) = false := by
        rw [jsStringToNum_d1]; rfl
      have hx2 : jsIsNaN (jsStringToNum ['2']) = false := by
        rw [jsStringToNum_d2]; rfl
      have hx4 : jsIsNaN (jsStringToNum ['4']) = false := by
        rw [jsStringToNum_d4]; rfl
      have hxx : jsIsNaN (jsStringToNum ['x']) = true := by decide
      simp [parseNumericArrayString, ht, hx1, hx2, hx4, hxx]
    rw [key, jsStringToNum_d1, jsStringToNum_d2, jsStringToNum_d4]

/-- C5 witness: the order-preservation clause applied to "1 2 x 4". -/
theorem parseNumericArrayString_spec_witness :
    [JsNum.fin 1, JsNum.fin 2, JsNum.fin 4] =
      ((numericTokens "1 2 x 4").map jsStringToNum).filter
        (fun v => !(jsIsNaN v)) :=
  parseNumericArrayString_spec.2.2.1 "1 2 x 4"
    [JsNum.fin 1, JsNum.fin 2, JsNum.fin 4]
    parseNumericArrayString_spec.2.2.2.2.1

lemma dv1 : (1 : ℚ) * decimalValue ['1'] [] 0 = 1 := by
  have h : digitsToNat ['1'] = 1 := by decide
  norm_num [decimalValue, h, tenPow]

lemma dv2 : (1 : ℚ) * decimalValue ['2'] [] 0 = 2 := by
  have h : digitsToNat ['2'] = 2 := by decide
  norm_num [decimalValue, h, tenPow]

lemma dv3 : (1 : ℚ) * decimalValue ['3'] [] 0 = 3 := by
  have h : digitsToNat ['3'] = 3 := by decide
  norm_num [decimalValue, h, tenPow]

lemma dv4 : (1 : ℚ) * decimalValue ['4'] [] 0 = 4 := by
  have h : digitsToNat ['4'] = 4 := by decide
  norm_num [decimalValue, h, tenPow]

/-- C8: `parseEmbeddingCsv` discards the first nonempty line as a header,
pairs every following row with the id-list entry at the same position
(dropping rows beyond the shorter list), drops rows whose x or y does not
parse as a finite number, and takes a row's own nonempty first field as
the id, falling back to the positional id; at most one nonempty line gives
an empty result.  The concrete instance exercises the id override, the
positional fallback, a dropped malformed row, and positional truncation. -/
theorem parseEmbeddingCsv_spec :
    (∀ (csvText : String) (ids : List String),
      parseEmbeddingCsv csvText ids =
        (((nonemptyLines csvText).drop 1).zip ids).filterMap
          (fun rf => rowToPoint rf.1 rf.2)) ∧
    (∀ (csvText : String) (ids : List String),
      (nonemptyLines csvText).length ≤ 1 →
        parseEmbeddingCsv csvText ids = []) ∧
    parseEmbeddingCsv "x,y\nA,1,2\n,3,4\nbad,x,4\n7,8" ["p0", "p1", "p2"] =
      [{ id := "A", x := 1, y := 2 }, { id := "p1", x := 3, y := 4 }] := by
  refine ⟨?_, ?_, ?_⟩
  · intro csvText ids
    by_cases h : (nonemptyLines csvText).length ≤ 1
    · have hdrop : (nonemptyLines csvText).drop 1 = [] :=
        List.drop_eq_nil_of_le h
      simp [parseEmbeddingCsv, h, hdrop]
    · simp [parseEmbeddingCsv, h, buildEmbeddingPoints_eq]
  · intro csvText ids h
    simp [parseEmbeddingCsv, h]
  · have key : parseEmbeddingCsv "x,y\nA,1,2\n,3,4\nbad,x,4\n7,8"
        ["p0", "p1", "p2"] =
        [{ id := "A", x := 1 * decimalValue ['1'] [] 0,
           y := 1 * decimalValue ['2'] [] 0 },
         { id := "p1", x := 1 * decimalValue ['3'] [] 0,
           y := 1 * decimalValue ['4'] [] 0 }] := rfl
    rw [key, dv1, dv2, dv3, dv4]

/-- C8 witness: the degenerate-input clause on a header-only text. -/
theorem parseEmbeddingCsv_spec_witness :
    (nonemptyLines "header only").length ≤ 1 ∧
    parseEmbeddingCsv "header only" ["p0"] = [] :=
  ⟨by decide, parseEmbeddingCsv_spec.2.1 "header only" ["p0"] (by decide)⟩

/-- Per-descriptor population statistics (`DescriptorStats` in
`types/MetadataStats.ts`). -/
structure DescriptorStats where
  min : JsNum
  mean : JsNum
  max : JsNum
  count : JsNum
deriving DecidableEq

/-- `MetadataStats`: a partial mapping from descriptor keys to stats. -/
def MetadataStats := DescriptorKey → Option DescriptorStats

/-- A configured inclusive range for one descriptor
(`RangeFilterValue`). -/
structure RangeFilterValue where
  min : JsNum
  max : JsNum
deriving DecidableEq

/-- `RangeFilterConfig` (the `unit`, `step`, `decimals` presentation
fields are carried for fidelity but never read by the pipeline). -/
structure RangeFilterConfig where
  key : DescriptorKey
  label : String
  unit : Option String := none
  step : ℚ
  decimals : ℕ

/-- The `RANGE_FILTERS` configuration list of
`src/components/CompoundsViewer.tsx`. -/
def RANGE_FILTERS : List RangeFilterConfig :=
  [{ key := DescriptorKey.mw, label := "MW", unit := some "Da",
     step := 1, decimals := 0 },
   { key := DescriptorKey.logp, label := "logP", step := 1/100,
     decimals := 2 },
   { key := DescriptorKey.tpsa, label := "TPSA", unit := some "A^2",
     step := 1, decimals := 0 },
   { key := DescriptorKey.qed_value, label := "QED", step := 1/100,
     decimals := 2 },
   { key := DescriptorKey.sas_score, label := "SAS", step := 1/100,
     decimals := 2 }]

/-- One option of a discrete filter: its select value, display label, and
predicate over the (possibly absent) descriptor value. -/
structure DiscreteFilterOption where
  value : String
  label : String
  predicate : Option JsNum → Bool

/-- A discrete filter configuration. -/
structure DiscreteFilterConfig where
  key : DescriptorKey
  label : String
  options : List DiscreteFilterOption

/-- JavaScript `value === n` for an optional number against a finite
literal (strict equality: absent and NaN compare false). -/
def jsStrictEqNum (v : Option JsNum) (n : ℚ) : Bool :=
  match v with
  | some (JsNum.fin q) => q = n
  | _ => false

/-- The `DISCRETE_FILTERS` configuration list of
`src/components/CompoundsViewer.tsx`, with each option's arrow-function
predicate translated under JavaScript comparison semantics
(`value ?? 0` is `Option.getD`, comparisons with NaN are false). -/
def DISCRETE_FILTERS : List DiscreteFilterConfig :=
  [{ key := DescriptorKey.logd, label := "logD",
     options :=
      [{ value := "any", label := "All logD", predicate := fun _ => true },
       { value := "lt0", label := "< 0",
         predicate := fun v =>
           jsLt (v.getD (JsNum.fin 0)) (JsNum.fin 0) },
       { value := "0to1", label := "0 - 1",
         predicate := fun v =>
           match v with
           | none => false
           | some x => jsLe (JsNum.fin 0) x && jsLe x (JsNum.fin 1) },
       { value := "1to2", label := "1 - 2",
         predicate := fun v =>
           match v with
           | none => false
           | some x => jsLt (JsNum.fin 1) x && jsLe x (JsNum.fin 2) },
       { value := "gt2", label := "> 2",
         predicate := fun v =>
           jsLt (JsNum.fin 2) (v.getD (JsNum.fin 0)) }] },
   { key := DescriptorKey.hbd, label := "HBD",
     options :=
      [{ value := "any", label := "All", predicate := fun _ => true },
       { value := "2", label := "2",
         predicate := fun v => jsStrictEqNum v 2 },
       { value := "3", label := "3",
         predicate := fun v => jsStrictEqNum v 3 }] },
   { key := DescriptorKey.hba, label := "HBA",
     options :=
      [{ value := "any", label := "All", predicate := fun _ => true },
       { value := "6", label := "6",
         predicate := fun v => jsStrictEqNum v 6 },
       { value := "7", label := "7",
         predicate := fun v => jsStrictEqNum v 7 },
       { value := "8", label := "8",
         predicate := fun v => jsStrictEqNum v 8 },
       { value := "9", label := "9",
         predicate := fun v => jsStrictEqNum v 9 },
       { value := "10", label := "10",
         predicate := fun v => jsStrictEqNum v 10 },
       { value := "11", label := "11",
         predicate := fun v => jsStrictEqNum v 11 }] },
   { key := DescriptorKey.fcsp3, label := "Fsp3",
     options :=
      [{ value := "any", label := "All", predicate := fun _ => true },
       { value := "lt0.2", label := "< 0.20",
         predicate := fun v =>
           jsLt (v.getD (JsNum.fin 0)) (JsNum.fin (1/5)) },
       { value := "0.2-0.35", label := "0.20 - 0.35",
         predicate := fun v =>
           match v with
           | none => false
           | some x =>
             jsLe (JsNum.fin (1/5)) x && jsLe x (JsNum.fin (7/20)) },
       { value := "gt0.35", label := "> 0.35",
         predicate := fun v =>
           jsLt (JsNum.fin (7/20)) (v.getD (JsNum.fin 0)) }] }]

/-- `FiltersState`: the configured range per key and the selected discrete
option value per key. -/
structure FiltersState where
  range : DescriptorKey → Option RangeFilterValue
  discrete : DescriptorKey → Option String

/-- One range filter's check from the `filteredCompounds` loop:
`metadataStats?.[config.key]` is optional chaining (`Option.bind`); the
check is skipped unless both stats and a configured range exist, a
missing descriptor value excludes the compound, and otherwise the
compound is excluded when `value < min || value > max` under JavaScript
comparisons. -/
def rangeCheck (metadataStats : Option MetadataStats) (fs : FiltersState)
    (compound : Compound) (config : RangeFilterConfig) : Bool :=
  match metadataStats.bind (fun ms => ms config.key),
        fs.range config.key with
  | some _, some rangeFilter =>
    (match getDescriptor compound config.key with
     | none => false
     | some value =>
       !(jsLt value rangeFilter.min) && !(jsLt rangeFilter.max value))
  | _, _ => true

/-- One discrete filter's check from the `filteredCompounds` loop: find
the option whose value strictly equals the currently selected value; no
matching option imposes no exclusion, otherwise the option's predicate
decides. -/
def discreteCheck (fs : FiltersState) (compound : Compound)
    (config : DiscreteFilterConfig) : Bool :=
  match config.options.find?
      (fun item => decide (fs.discrete config.key = some item.value)) with
  | none => true
  | some option => option.predicate (getDescriptor compound config.key)

/-- The per-compound predicate of the `filteredCompounds` memo in
`src/components/CompoundsViewer.tsx`: the embedding-selection gate, then
(when the filter state exists) every range check and every discrete
check.  The source's early-`return false` loops are the `List.all`
folds. -/
def compoundPasses (filters : Option FiltersState)
    (metadataStats : Option MetadataStats)
    (embeddingSelection : List String) (compound : Compound) : Bool :=
  if 0 < embeddingSelection.length &&
      !(embeddingSelection.contains compound.name) then false
  else
    match filters with
    | none => true
    | some fs =>
      RANGE_FILTERS.all (rangeCheck metadataStats fs compound) &&
      DISCRETE_FILTERS.all (discreteCheck fs compound)

/-- `filteredCompounds`: the stable filter of the compound list by
`compoundPasses`. -/
def filteredCompounds (compounds : List Compound)
    (filters : Option FiltersState) (metadataStats : Option MetadataStats)
    (embeddingSelection : List String) : List Compound :=
  compounds.filter
    (compoundPasses filters metadataStats embeddingSelection)

/-- Spec-side range condition for C3, phrased as the claim phrases it:
whenever the key has both a configured range and population stats, the
descriptor value must be present and lie in [min, max] inclusive (under
JavaScript comparisons: the value is not outside the range). -/
def rangeCheckClaim (filters : Option FiltersState)
    (metadataStats : Option MetadataStats) (compound : Compound)
    (config : RangeFilterConfig) : Bool :=
  match filters.bind (fun fs => fs.range config.key),
        metadataStats.bind (fun ms => ms config.key) with
  | some rangeFilter, some _ =>
    (getDescriptor compound config.key).any (fun value =>
      !(jsLt value rangeFilter.min) && !(jsLt rangeFilter.max value))
  | _, _ => true

/-- Spec-side discrete condition for C3: whenever the key's selected
option exists, its predicate must hold on the compound's value. -/
def discreteCheckClaim (filters : Option FiltersState) (compound : Compound)
    (config : DiscreteFilterConfig) : Bool :=
  match filters.bind (fun fs =>
      config.options.find?
        (fun item => decide (fs.discrete config.key = some item.value))) with
  | none => true
  | some option => option.predicate (getDescriptor compound config.key)

/-- Spec-side membership predicate for C3: (1) the selection set is empty
or contains the compound's name; (2) every range condition; (3) every
discrete condition. -/
def claimKeep (filters : Option FiltersState)
    (metadataStats : Option MetadataStats) (selection : List String)
    (compound : Compound) : Bool :=
  (selection.isEmpty || selection.contains compound.name) &&
  (RANGE_FILTERS.all (rangeCheckClaim filters metadataStats compound) &&
   DISCRETE_FILTERS.all (discreteCheckClaim filters compound))

lemma rangeCheckClaim_none (metadataStats : Option MetadataStats)
    (compound : Compound) (config : RangeFilterConfig) :
    rangeCheckClaim none metadataStats compound config = true := rfl

lemma discreteCheckClaim_none (compound : Compound)
    (config : DiscreteFilterConfig) :
    discreteCheckClaim none compound config = true := rfl

lemma rangeCheckClaim_some (fs : FiltersState)
    (metadataStats : Option MetadataStats) (compound : Compound)
    (config : RangeFilterConfig) :
    rangeCheckClaim (some fs) metadataStats compound config =
      rangeCheck metadataStats fs compound config := by
  unfold rangeCheckClaim rangeCheck
  simp only [Option.some_bind]
  cases h1 : fs.range config.key <;>
    cases h2 : metadataStats.bind (fun ms => ms config.key) <;>
      cases h3 : getDescriptor compound config.key <;> simp [h3]

lemma discreteCheckClaim_some (fs : FiltersState) (compound : Compound)
    (config : DiscreteFilterConfig) :
    discreteCheckClaim (some fs) compound config =
      discreteCheck fs compound config := rfl

lemma selection_gate_eq (sel : List String) (name : String) (X : Bool) :
    (if 0 < sel.length && !(sel.contains name) then false else X) =
    ((sel.isEmpty || sel.contains name) && X) := by
  cases sel with
  | nil => simp
  | cons s ss =>
    by_cases hc : (s :: ss).contains name
    · simp [hc]
    · simp [hc]

lemma compoundPasses_eq_claimKeep (filters : Option FiltersState)
    (metadataStats : Option MetadataStats) (sel : List String)
    (compound : Compound) :
    compoundPasses filters metadataStats sel compound =
      claimKeep filters metadataStats sel compound := by
  unfold compoundPasses claimKeep
  rw [selection_gate_eq]
  congr 1
  cases filters with
  | none =>
    have h1 : RANGE_FILTERS.all (rangeCheckClaim none metadataStats compound) =
        true := by
      rw [List.all_eq_true]
      intro x _
      exact rangeCheckClaim_none metadataStats compound x
    have h2 : DISCRETE_FILTERS.all (discreteCheckClaim none compound) =
        true := by
      rw [List.all_eq_true]
      intro x _
      exact discreteCheckClaim_none compound x
    rw [h1, h2]
    rfl
  | some fs =>
    have h1 : RANGE_FILTERS.all (rangeCheckClaim (some fs) metadataStats compound) =
        RANGE_FILTERS.all (rangeCheck metadataStats fs compound) := by
      have : rangeCheckClaim (some fs) metadataStats compound =
          rangeCheck metadataStats fs compound :=
        funext (rangeCheckClaim_some fs metadataStats compound)
      rw [this]
    have h2 : DISCRETE_FILTERS.all (discreteCheckClaim (some fs) compound) =
        DISCRETE_FILTERS.all (discreteCheck fs compound) := by
      have : discreteCheckClaim (some fs) compound =
          discreteCheck fs compound :=
        funext (discreteCheckClaim_some fs compound)
      rw [this]
    rw [h1, h2]

/-- C3: a compound is kept exactly when (1) the selection set is empty or
contains its name, (2) every range-filter key with both a configured
range and population stats sees a present descriptor value lying in
[min, max] inclusive, and (3) every discrete-filter key whose selected
option exists has that option's predicate hold (no matching option, no
exclusion); and the output is a stable-order subsequence of the input. -/
theorem filteredCompounds_spec :
    (∀ (compounds : List Compound) (filters : Option FiltersState)
        (metadataStats : Option MetadataStats) (selection : List String),
      filteredCompounds compounds filters metadataStats selection =
        compounds.filter (claimKeep filters metadataStats selection)) ∧
    (∀ (compounds : List Compound) (filters : Option FiltersState)
        (metadataStats : Option MetadataStats) (selection : List String),
      (filteredCompounds compounds filters metadataStats selection).Sublist
        compounds) := by
  constructor
  · intro compounds filters metadataStats selection
    unfold filteredCompounds
    congr 1
    funext c
    exact compoundPasses_eq_claimKeep filters metadataStats selection c
  · intro compounds filters metadataStats selection
    exact List.filter_sublist compounds

/-- The `HISTOGRAM_KEYS` list of `src/components/CompoundsViewer.tsx`. -/
def HISTOGRAM_KEYS : List DescriptorKey :=
  [DescriptorKey.mw, DescriptorKey.logp, DescriptorKey.tpsa,
   DescriptorKey.qed_value, DescriptorKey.sas_score, DescriptorKey.logd,
   DescriptorKey.hbd, DescriptorKey.hba, DescriptorKey.fcsp3]

/-- The clamped bin of a finite value for stats range [mn, mx]:
`Math.min(BIN_COUNT - 1, Math.max(0, Math.floor(normalized * BIN_COUNT)))`
with `BIN_COUNT = 24` and `normalized = (value - min) / range`. -/
def binIndex (mn mx v : ℚ) : ℕ :=
  Int.toNat (min 23 (max 0 ⌊((v - mn) / (mx - mn)) * 24⌋))

/-- `bins[i] += 1` on a bin list. -/
def bumpBin : List ℕ → ℕ → List ℕ
  | [], _ => []
  | b :: bs, 0 => (b + 1) :: bs
  | b :: bs, Nat.succ i => b :: bumpBin bs i

/-- The bin counts for one key: every compound whose value is a finite
number lands in its clamped bin; a missing value fails the
`typeof rawValue !== "number"` guard, and a NaN or infinite value makes
`normalized` NaN or infinite, failing the
`Number.isNaN(normalized) || !Number.isFinite(normalized)` guard — either
way the compound is skipped. -/
def histogramCounts (compounds : List Compound) (key : DescriptorKey)
    (mn mx : ℚ) : List ℕ :=
  compounds.foldl
    (fun bins compound =>
      match getDescriptor compound key with
      | some (JsNum.fin v) => bumpBin bins (binIndex mn mx v)
      | _ => bins)
    (List.replicate 24 0)

/-- The histogram for one key with valid stats: the counts divided by
their own maximum (`Math.max(...bins)`, here a `foldr max 0` over the
24 counts) when that maximum is positive, the raw (all-zero) counts
otherwise.  The source's local `bins`/`maxCount` bindings are written out
in full. -/
def histogramForKey (compounds : List Compound) (key : DescriptorKey)
    (mn mx : ℚ) : List ℚ :=
  if 0 < (histogramCounts compounds key mn mx).foldr max 0 then
    (histogramCounts compounds key mn mx).map
      (fun value =>
        (Nat.cast value : ℚ) /
          (Nat.cast ((histogramCounts compounds key mn mx).foldr max 0) : ℚ))
  else
    (histogramCounts compounds key mn mx).map
      (fun value => (Nat.cast value : ℚ))

/-- The `histogramData` memo of `src/components/CompoundsViewer.tsx`:
null without compounds or stats; otherwise, per histogram key, a
histogram when the key's stats exist with finite distinct min/max. -/
def histogramData (compounds : List Compound)
    (metadataStats : Option MetadataStats) :
    Option (DescriptorKey → Option (List ℚ)) :=
  match metadataStats with
  | none => none
  | some ms =>
    if compounds.length = 0 then none
    else
      some (fun key =>
        if HISTOGRAM_KEYS.contains key then
          match ms key with
          | none => none
          | some stats =>
            match stats.min, stats.max with
            | JsNum.fin mn, JsNum.fin mx =>
              if mn = mx then none
              else some (histogramForKey compounds key mn mx)
            | _, _ => none
        else none)

lemma bumpBin_length : ∀ (bins : List ℕ) (i : ℕ),
    (bumpBin bins i).length = bins.length := by
  intro bins
  induction bins with
  | nil => intro i; rfl
  | cons b bs ih =>
    intro i
    cases i with
    | zero => rfl
    | succ j => simp [bumpBin, ih j]

lemma histogramCounts_length_aux (key : DescriptorKey) (mn mx : ℚ) :
    ∀ (compounds : List Compound) (bins : List ℕ),
      (compounds.foldl
        (fun bins compound =>
          match getDescriptor compound key with
          | some (JsNum.fin v) => bumpBin bins (binIndex mn mx v)
          | _ => bins)
        bins).length = bins.length := by
  intro compounds
  induction compounds with
  | nil => intro bins; rfl
  | cons c cs ih =>
    intro bins
    rw [List.foldl_cons, ih]
    cases h : getDescriptor c key with
    | none => rfl
    | some v => cases v <;> simp [bumpBin_length]

lemma foldr_max_ge {l : List ℕ} {b : ℕ} (h : b ∈ l) :
    b ≤ l.foldr max 0 := by
  induction l with
  | nil => simp at h
  | cons x xs ih =>
    rcases List.mem_cons.mp h with rfl | hmem
    · exact le_max_left _ _
    · exact le_trans (ih hmem) (le_max_right _ _)

/-- C6: for each histogram key with finite, distinct min/max stats, every
finite compound value is bucketed by `floor(((v-min)/(max-min))*24)`
clamped to [0, 23] (the domain max lands in bin 23, never out of range),
non-numeric or missing values are skipped, the histogram has 24 entries
normalized into [0,1] by the maximum bin count, an all-zero histogram is
returned unnormalized, and keys with missing, non-finite, or degenerate
stats produce no histogram. -/
theorem histogramData_spec :
    (∀ mn mx : ℚ, mn ≠ mx → binIndex mn mx mx = 23) ∧
    (∀ mn mx v : ℚ, binIndex mn mx v ≤ 23) ∧
    (∀ (compounds : List Compound) (key : DescriptorKey) (mn mx : ℚ),
      (histogramForKey compounds key mn mx).length = 24) ∧
    (∀ (compounds : List Compound) (key : DescriptorKey) (mn mx : ℚ)
        (q : ℚ), q ∈ histogramForKey compounds key mn mx →
      0 ≤ q ∧ q ≤ 1) ∧
    (∀ (compounds : List Compound) (key : DescriptorKey) (mn mx : ℚ)
        (c : Compound),
      (∀ v : ℚ, getDescriptor c key ≠ some (JsNum.fin v)) →
      histogramCounts (c :: compounds) key mn mx =
        histogramCounts compounds key mn mx) ∧
    (∀ (compounds : List Compound) (ms : MetadataStats)
        (f : DescriptorKey → Option (List ℚ)) (key : DescriptorKey),
      histogramData compounds (some ms) = some f →
      (ms key = none → f key = none) ∧
      (∀ stats : DescriptorStats, ms key = some stats →
        (jsIsFinite stats.min = false ∨ jsIsFinite stats.max = false ∨
          stats.min = stats.max) →
        f key = none)) ∧
    (∀ (compounds : List Compound) (ms : MetadataStats)
        (f : DescriptorKey → Option (List ℚ)) (key : DescriptorKey)
        (stats : DescriptorStats) (mn mx : ℚ),
      histogramData compounds (some ms) = some f →
      HISTOGRAM_KEYS.contains key = true → ms key = some stats →
      stats.min = JsNum.fin mn → stats.max = JsNum.fin mx → mn ≠ mx →
      f key = some (histogramForKey compounds key mn mx)) ∧
    (∀ (compounds : List Compound) (key : DescriptorKey) (mn mx : ℚ),
      (histogramCounts compounds key mn mx).foldr max 0 = 0 →
      histogramForKey compounds key mn mx =
        (histogramCounts compounds key mn mx).map
          (fun v => (Nat.cast v : ℚ))) ∧
    binIndex 0 100 100 = 23 := by
  have hbin : ∀ mn mx : ℚ, mn ≠ mx → binIndex mn mx mx = 23 := by
    intro mn mx h
    have hne : mx - mn ≠ 0 := sub_ne_zero_of_ne (Ne.symm h)
    unfold binIndex
    rw [div_self hne, one_mul]
    have h24 : ⌊(24 : ℚ)⌋ = 24 := by norm_num
    rw [h24]
    decide
  refine ⟨hbin, ?_, ?_, ?_, ?_, ?_, ?_, ?_, hbin 0 100 (by norm_num)⟩
  · intro mn mx v
    have h1 : min (23:ℤ) (max 0 ⌊((v - mn) / (mx - mn)) * 24⌋) ≤ 23 :=
      min_le_left _ _
    have h2 := Int.toNat_le_toNat h1
    unfold binIndex
    exact le_trans h2 (by decide)
  · intro compounds key mn mx
    have hc : (histogramCounts compounds key mn mx).length = 24 := by
      unfold histogramCounts
      rw [histogramCounts_length_aux]
      simp
    unfold histogramForKey
    by_cases h : 0 < (histogramCounts compounds key mn mx).foldr max 0
    · rw [if_pos h, List.length_map, hc]
    · rw [if_neg h, List.length_map, hc]
  · intro compounds key mn mx q hq
    unfold histogramForKey at hq
    by_cases h : 0 < (histogramCounts compounds key mn mx).foldr max 0
    · rw [if_pos h] at hq
      obtain ⟨b, hb, rfl⟩ := List.mem_map.mp hq
      have hbM : b ≤ (histogramCounts compounds key mn mx).foldr max 0 :=
        foldr_max_ge hb
      have hMpos : (0 : ℚ) <
          (Nat.cast ((histogramCounts compounds key mn mx).foldr max 0) :
            ℚ) := by
        exact_mod_cast h
      constructor
      · positivity
      · rw [div_le_one hMpos]
        exact_mod_cast hbM
    · rw [if_neg h] at hq
      obtain ⟨b, hb, rfl⟩ := List.mem_map.mp hq
      have hM0 : (histogramCounts compounds key mn mx).foldr max 0 = 0 :=
        Nat.eq_zero_of_not_pos h
      have hb0 : b = 0 := Nat.le_zero.mp (hM0 ▸ foldr_max_ge hb)
      subst hb0
      norm_num
  · intro compounds key mn mx c hnv
    unfold histogramCounts
    rw [List.foldl_cons]
    cases h : getDescriptor c key with
    | none => rfl
    | some v =>
      cases v with
      | fin q => exact absurd h (hnv q)
      | posInf => rfl
      | negInf => rfl
      | nan => rfl
  · intro compounds ms f key h
    simp only [histogramData] at h
    by_cases hlen : compounds.length = 0
    · rw [if_pos hlen] at h
      exact absurd h (by simp)
    · rw [if_neg hlen] at h
      have hf := Option.some_inj.mp h
      subst hf
      constructor
      · intro hms
        by_cases hk : HISTOGRAM_KEYS.contains key
        · simp [hk, hms]
        · exact if_neg hk
      · intro stats hms hbad
        by_cases hk : HISTOGRAM_KEYS.contains key
        · rcases hbad with hb | hb | hb
          · cases hmin : stats.min with
            | fin mn => rw [hmin] at hb; simp [jsIsFinite] at hb
            | posInf => simp [hk, hms, hmin]
            | negInf => simp [hk, hms, hmin]
            | nan => simp [hk, hms, hmin]
          · cases hmin : stats.min with
            | fin mn =>
              cases hmax : stats.max with
              | fin mx => rw [hmax] at hb; simp [jsIsFinite] at hb
              | posInf => simp [hk, hms, hmin, hmax]
              | negInf => simp [hk, hms, hmin, hmax]
              | nan => simp [hk, hms, hmin, hmax]
            | posInf => simp [hk, hms, hmin]
            | negInf => simp [hk, hms, hmin]
            | nan => simp [hk, hms, hmin]
          · cases hmin : stats.min with
            | fin mn =>
              cases hmax : stats.max with
              | fin mx =>
                have heq : mn = mx := by
                  rw [hmin, hmax] at hb
                  injection hb
                simp [hk, hms, hmin, hmax, heq]
              | posInf => simp [hk, hms, hmin, hmax]
              | negInf => simp [hk, hms, hmin, hmax]
              | nan => simp [hk, hms, hmin, hmax]
            | posInf => simp [hk, hms, hmin]
            | negInf => simp [hk, hms, hmin]
            | nan => simp [hk, hms, hmin]
        · exact if_neg hk
  · intro compounds ms f key stats mn mx h hk hms hmin hmax hne
    simp only [histogramData] at h
    by_cases hlen : compounds.length = 0
    · rw [if_pos hlen] at h
      exact absurd h (by simp)
    · rw [if_neg hlen] at h
      have hf := Option.some_inj.mp h
      subst hf
      simp [hk, hms, hmin, hmax, hne]
      simpa using hk
  · intro compounds key mn mx h
    simp [histogramForKey, h]

/-- C6 witness: the clamped-bin clause at the spec's [0, 100] example. -/
theorem histogramData_spec_witness :
    (0 : ℚ) ≠ 100 ∧ binIndex 0 100 100 = 23 :=
  ⟨by norm_num, histogramData_spec.1 0 100 (by norm_num)⟩

/-!
The scatter & lasso selection engine (`src/components/EmbeddingExplorer.tsx`).
Screen coordinates are exact rationals; `Math.hypot` distances are compared
through their squares (the square root is strictly monotone on nonnegative
reals, so `hypot < 12` is `distSq < 144` and `hypot d₁ < hypot d₂` is
`distSq₁ < distSq₂`), keeping every comparison exact and decidable.
-/

/-- `Number.EPSILON` = 2⁻⁵², the epsilon added to the ray-cast
denominator. -/
def epsJS : ℚ := 1 / 2 ^ 52

/-- The edge list walked by `isPointInPolygon`: index `i` runs over the
polygon, `j` trails behind starting at the last vertex, giving the pairs
`(polygon[i], polygon[i-1])` with `polygon[-1]` the last vertex. -/
def polygonEdges (polygon : List (ℚ × ℚ)) : List ((ℚ × ℚ) × (ℚ × ℚ)) :=
  match polygon.getLast? with
  | none => []
  | some lastP => polygon.zip (lastP :: polygon)

/-- One iteration's crossing test:
`yi > y !== yj > y && x < ((xj-xi)*(y-yi))/(yj-yi+EPSILON) + xi`. -/
def edgeCrosses (target : ℚ × ℚ) (edge : (ℚ × ℚ) × (ℚ × ℚ)) : Bool :=
  (decide (target.2 < edge.1.2) != decide (target.2 < edge.2.2)) &&
  decide (target.1 <
    ((edge.2.1 - edge.1.1) * (target.2 - edge.1.2)) /
      (edge.2.2 - edge.1.2 + epsJS) + edge.1.1)

/-- `isPointInPolygon` from `src/components/EmbeddingExplorer.tsx`: the
even-odd ray-cast, toggling `inside` at every crossing edge. -/
def isPointInPolygon (polygon : List (ℚ × ℚ)) (target : ℚ × ℚ) : Bool :=
  (polygonEdges polygon).foldl
    (fun inside edge => if edgeCrosses target edge then !inside else inside)
    false

/-- Spec-side crossing count for the even-odd rule: how many polygon
edges the horizontal ray crosses. -/
def crossingCount (polygon : List (ℚ × ℚ)) (target : ℚ × ℚ) : ℕ :=
  ((polygonEdges polygon).filter (edgeCrosses target)).length

/-- Squared screen-space Euclidean distance from a rendered point's
projection to a recorded path position. -/
def screenDistSq (projX projY : ℚ → ℚ) (latest : ℚ × ℚ)
    (point : EmbeddingPointBase) : ℚ :=
  (projX point.x - latest.1) ^ 2 + (projY point.y - latest.2) ^ 2

/-- The body of the `points.forEach` nearest-point scan in
`applyLassoSelection`: keep `(closestId, bestDistance)` when the candidate
is within the 12px tolerance and strictly closer than the best so far;
the `none` accumulator is the initial `closestId = null`,
`bestDistance = Infinity` state (any in-tolerance distance beats
Infinity). -/
def nearestStep (projX projY : ℚ → ℚ) (latest : ℚ × ℚ)
    (best : Option (String × ℚ)) (point : EmbeddingPointBase) :
    Option (String × ℚ) :=
  match best with
  | none =>
    if screenDistSq projX projY latest point < 144 then
      some (point.id, screenDistSq projX projY latest point)
    else none
  | some (closestId, bestDistance) =>
    if screenDistSq projX projY latest point < 144 ∧
        screenDistSq projX projY latest point < bestDistance then
      some (point.id, screenDistSq projX projY latest point)
    else some (closestId, bestDistance)

/-- `applyLassoSelection` from `src/components/EmbeddingExplorer.tsx`:
with fewer than 3 recorded points, an empty path emits an empty
selection, otherwise the single nearest rendered point within the 12px
tolerance of the last recorded position (or an empty selection); with at
least 3 points, the ids of the rendered points whose projection passes
the ray-cast polygon test (the source's forEach-push is the
filter-then-map). -/
def applyLassoSelection (points : List EmbeddingPointBase)
    (projX projY : ℚ → ℚ) (path : List (ℚ × ℚ)) : List String :=
  if path.length < 3 then
    match path.getLast? with
    | none => []
    | some latest =>
      match points.foldl (nearestStep projX projY latest) none with
      | some (closestId, _) => [closestId]
      | none => []
  else
    (points.filter (fun point =>
      isPointInPolygon path (projX point.x, projY point.y))).map
      (fun point => point.id)

/-- `projectX`: the linear x scale (`max - min || 1` guards a degenerate
span). -/
def projectX (domMin domMax marginLeft plotWidth value : ℚ) : ℚ :=
  marginLeft +
    ((value - domMin) /
      (if domMax - domMin = 0 then 1 else domMax - domMin)) * plotWidth

/-- `projectY`: the linear y scale, flipped so larger values sit higher
on screen. -/
def projectY (domMin domMax marginTop plotHeight value : ℚ) : ℚ :=
  marginTop + plotHeight -
    ((value - domMin) /
      (if domMax - domMin = 0 then 1 else domMax - domMin)) * plotHeight

/-- `handleEmbeddingSelectionChange` in `CompoundsViewer` commits the
emitted ids as the new selection, discarding the previous one. -/
def handleEmbeddingSelectionChange (_previous : List String)
    (ids : List String) : List String := ids

lemma nearest_fold_none (projX projY : ℚ → ℚ) (latest : ℚ × ℚ) :
    ∀ (l : List EmbeddingPointBase) (acc : Option (String × ℚ)),
      l.foldl (nearestStep projX projY latest) acc = none ↔
        (acc = none ∧
          ∀ p ∈ l, ¬(screenDistSq projX projY latest p < 144)) := by
  intro l
  induction l with
  | nil => intro acc; simp
  | cons p ps ih =>
    intro acc
    rw [List.foldl_cons, ih]
    constructor
    · rintro ⟨hstep, hrest⟩
      cases acc with
      | none =>
        by_cases hd : screenDistSq projX projY latest p < 144
        · simp [nearestStep, hd] at hstep
        · refine ⟨rfl, ?_⟩
          intro q hq
          rcases List.mem_cons.mp hq with rfl | hq'
          · exact hd
          · exact hrest q hq'
      | some b =>
        exfalso
        rcases b with ⟨bid, bsq⟩
        by_cases hd : screenDistSq projX projY latest p < 144 ∧
            screenDistSq projX projY latest p < bsq <;>
          simp [nearestStep, hd] at hstep
    · rintro ⟨rfl, hall⟩
      have hd : ¬(screenDistSq projX projY latest p < 144) :=
        hall p (List.mem_cons_self p ps)
      refine ⟨by simp [nearestStep, hd], ?_⟩
      intro q hq
      exact hall q (List.mem_cons_of_mem p hq)

lemma nearest_fold_some (projX projY : ℚ → ℚ) (latest : ℚ × ℚ) :
    ∀ (l : List EmbeddingPointBase) (acc : Option (String × ℚ))
      (idv : String) (sq : ℚ),
      l.foldl (nearestStep projX projY latest) acc = some (idv, sq) →
      (acc = some (idv, sq) ∧
        ∀ q ∈ l, ¬(screenDistSq projX projY latest q < 144 ∧
          screenDistSq projX projY latest q < sq)) ∨
      ((∃ p ∈ l, p.id = idv ∧ screenDistSq projX projY latest p = sq) ∧
        sq < 144 ∧
        (∀ q ∈ l, ¬(screenDistSq projX projY latest q < 144 ∧
          screenDistSq projX projY latest q < sq)) ∧
        (∀ bid bsq, acc = some (bid, bsq) → sq < bsq)) := by
  intro l
  induction l with
  | nil =>
    intro acc idv sq h
    left
    exact ⟨h, by simp⟩
  | cons p ps ih =>
    intro acc idv sq h
    rw [List.foldl_cons] at h
    rcases ih _ idv sq h with ⟨hacc, hrest⟩ |
      ⟨⟨w, hw, hwid, hwd⟩, hsq, hrest, hbound⟩
    · cases acc with
      | none =>
        by_cases hd : screenDistSq projX projY latest p < 144
        · simp only [nearestStep, if_pos hd, Option.some_inj,
            Prod.mk.injEq] at hacc
          obtain ⟨hid, hdp⟩ := hacc
          right
          refine ⟨⟨p, List.mem_cons_self p ps, hid, hdp⟩, hdp ▸ hd, ?_,
            by simp⟩
          intro q hq
          rcases List.mem_cons.mp hq with rfl | hq'
          · rintro ⟨-, hlt⟩
            rw [← hdp] at hlt
            exact lt_irrefl _ hlt
          · exact hrest q hq'
        · simp [nearestStep, hd] at hacc
      | some b =>
        rcases b with ⟨bid, bsq⟩
        by_cases hd : screenDistSq projX projY latest p < 144 ∧
            screenDistSq projX projY latest p < bsq
        · simp only [nearestStep, if_pos hd, Option.some_inj,
            Prod.mk.injEq] at hacc
          obtain ⟨hid, hdp⟩ := hacc
          right
          refine ⟨⟨p, List.mem_cons_self p ps, hid, hdp⟩, hdp ▸ hd.1, ?_, ?_⟩
          · intro q hq
            rcases List.mem_cons.mp hq with rfl | hq'
            · rintro ⟨-, hlt⟩
              rw [← hdp] at hlt
              exact lt_irrefl _ hlt
            · exact hrest q hq'
          · intro bid' bsq' hacc'
            injection hacc' with hpair
            injection hpair with h1 h2
            rw [← hdp, ← h2]
            exact hd.2
        · simp only [nearestStep, if_neg hd, Option.some_inj,
            Prod.mk.injEq] at hacc
          obtain ⟨hid, hbq⟩ := hacc
          left
          subst hid
          subst hbq
          refine ⟨rfl, ?_⟩
          intro q hq
          rcases List.mem_cons.mp hq with rfl | hq'
          · exact hd
          · exact hrest q hq'
    · right
      refine ⟨⟨w, List.mem_cons_of_mem p hw, hwid, hwd⟩, hsq, ?_, ?_⟩
      · intro q hq
        rcases List.mem_cons.mp hq with rfl | hq'
        · rintro ⟨hd144, hdlt⟩
          have hstep : ∃ bid' bsq',
              nearestStep projX projY latest acc q = some (bid', bsq') ∧
              bsq' ≤ screenDistSq projX projY latest q := by
            cases acc with
            | none =>
              exact ⟨q.id, screenDistSq projX projY latest q,
                by simp [nearestStep, hd144], le_refl _⟩
            | some b =>
              rcases b with ⟨bid, bsq⟩
              by_cases hd : screenDistSq projX projY latest q < 144 ∧
                  screenDistSq projX projY latest q < bsq
              · exact ⟨q.id, screenDistSq projX projY latest q,
                  by simp [nearestStep, hd], le_refl _⟩
              · have hle : bsq ≤ screenDistSq projX projY latest q := by
                  rcases not_and_or.mp hd with h1 | h2
                  · exact absurd hd144 h1
                  · exact not_lt.mp h2
                exact ⟨bid, bsq, by simp [nearestStep, hd], hle⟩
          obtain ⟨bid', bsq', hstep', hle⟩ := hstep
          have hlt2 := hbound bid' bsq' hstep'
          exact absurd hdlt (not_lt.mpr (le_of_lt (lt_of_lt_of_le hlt2 hle)))
        · exact hrest q hq'
      · intro bid bsq hacc2
        subst hacc2
        by_cases hd : screenDistSq projX projY latest p < 144 ∧
            screenDistSq projX projY latest p < bsq
        · have := hbound p.id (screenDistSq projX projY latest p)
            (by simp [nearestStep, hd])
          exact lt_trans this hd.2
        · exact hbound bid bsq (by simp [nearestStep, hd])

lemma foldl_toggle_parity {α : Type} (p : α → Bool) :
    ∀ (l : List α) (b : Bool),
      l.foldl (fun inside e => if p e then !inside else inside) b =
        xor b (decide ((l.filter p).length % 2 = 1)) := by
  intro l
  induction l with
  | nil => intro b; simp
  | cons x xs ih =>
    intro b
    rw [List.foldl_cons]
    by_cases hx : p x
    · rw [if_pos hx, ih, List.filter_cons_of_pos hx, List.length_cons]
      have hparity : ∀ n : ℕ,
          decide ((n + 1) % 2 = 1) = !(decide (n % 2 = 1)) := by
        intro n
        rcases Nat.mod_two_eq_zero_or_one n with h | h <;>
          simp [Nat.add_mod, h]
      rw [hparity]
      cases b <;>
        cases hdec : decide (((xs.filter p).length) % 2 = 1) <;> simp
    · rw [if_neg hx, ih, List.filter_cons_of_neg hx]

/-- C4: on drag finalize the emitted selection replaces the prior one and
is: with an empty recorded path, empty; with one or two recorded points,
the single rendered point strictly nearest (in screen space) to the last
recorded position when within the 12px tolerance, else empty; with three
or more recorded points, exactly the rendered points whose projection
passes the even-odd ray-cast polygon test (the toggle fold equals odd
crossing count). -/
theorem applyLassoSelection_spec :
    (∀ (points : List EmbeddingPointBase) (projX projY : ℚ → ℚ),
      applyLassoSelection points projX projY [] = []) ∧
    (∀ (points : List EmbeddingPointBase) (projX projY : ℚ → ℚ)
        (path : List (ℚ × ℚ)) (latest : ℚ × ℚ),
      path.length < 3 → path.getLast? = some latest →
      ((applyLassoSelection points projX projY path = [] ↔
        ∀ p ∈ points, ¬(screenDistSq projX projY latest p < 144)) ∧
      (∀ idv : String,
        applyLassoSelection points projX projY path = [idv] →
        ∃ p ∈ points, p.id = idv ∧
          screenDistSq projX projY latest p < 144 ∧
          ∀ q ∈ points, screenDistSq projX projY latest p ≤
            screenDistSq projX projY latest q))) ∧
    (∀ (points : List EmbeddingPointBase) (projX projY : ℚ → ℚ)
        (path : List (ℚ × ℚ)),
      ¬(path.length < 3) →
      applyLassoSelection points projX projY path =
        (points.filter (fun point =>
          isPointInPolygon path (projX point.x, projY point.y))).map
          (fun point => point.id)) ∧
    (∀ (polygon : List (ℚ × ℚ)) (target : ℚ × ℚ),
      isPointInPolygon polygon target = true ↔
        Odd (crossingCount polygon target)) ∧
    (∀ (previous ids : List String),
      handleEmbeddingSelectionChange previous ids = ids) := by
  refine ⟨?_, ?_, ?_, ?_, fun _ _ => rfl⟩
  · intro points projX projY
    rfl
  · intro points projX projY path latest hlen hlast
    have hform : applyLassoSelection points projX projY path =
        match points.foldl (nearestStep projX projY latest) none with
        | some (closestId, _) => [closestId]
        | none => [] := by
      unfold applyLassoSelection
      rw [if_pos hlen, hlast]
    rw [hform]
    cases hr : points.foldl (nearestStep projX projY latest) none with
    | none =>
      have hnone := (nearest_fold_none projX projY latest points none).mp hr
      constructor
      · exact iff_of_true rfl hnone.2
      · intro idv h
        exact absurd h (by simp)
    | some b =>
      rcases b with ⟨idv', sq'⟩
      rcases nearest_fold_some projX projY latest points none idv' sq' hr with
        ⟨habs, -⟩ | ⟨⟨p, hp, hpid, hpd⟩, hsq, hrest, -⟩
      · exact absurd habs (by simp)
      · have hdp : screenDistSq projX projY latest p < 144 := by
          rw [hpd]; exact hsq
        constructor
        · exact iff_of_false (by simp) (fun hall => hall p hp hdp)
        · intro idv hone
          have hid : idv' = idv := by simpa using hone
          subst hid
          refine ⟨p, hp, hpid, hdp, ?_⟩
          intro q hq
          by_cases h144 : screenDistSq projX projY latest q < 144
          · by_contra hlt
            push_neg at hlt
            exact hrest q hq ⟨h144, hpd ▸ hlt⟩
          · rw [hpd]
            exact le_of_lt (lt_of_lt_of_le hsq (not_lt.mp h144))
  · intro points projX projY path hlen
    unfold applyLassoSelection
    rw [if_neg hlen]
  · intro polygon target
    unfold isPointInPolygon
    rw [foldl_toggle_parity]
    simp [crossingCount, Nat.odd_iff]

/-- C4 witness: the polygon branch applied to a concrete triangular path
of three recorded points and one rendered point under identity
projections. -/
theorem applyLassoSelection_spec_witness :
    ¬(([((0:ℚ), (0:ℚ)), (4, 0), (2, 3)] : List (ℚ × ℚ)).length < 3) ∧
    applyLassoSelection [{ id := "a", x := 1, y := 1 }]
        (fun v => v) (fun v => v) [((0:ℚ), (0:ℚ)), (4, 0), (2, 3)] =
      (([{ id := "a", x := 1, y := 1 }] : List EmbeddingPointBase).filter
        (fun point =>
          isPointInPolygon [((0:ℚ), (0:ℚ)), (4, 0), (2, 3)]
            ((fun v => v) point.x, (fun v => v) point.y))).map
        (fun point => point.id) :=
  ⟨by decide,
   applyLassoSelection_spec.2.2.1 [{ id := "a", x := 1, y := 1 }]
     (fun v => v) (fun v => v) [((0:ℚ), (0:ℚ)), (4, 0), (2, 3)]
     (by decide)⟩

/-!
The debounced parameter controller (`useDebounce` in `src/hooks.ts`),
modelled as an explicit state machine on the single-threaded event loop:
the state carries the synchronously visible `pendingValue` and the armed
timer (`debounceRef`) as the scheduled commit value with its absolute
deadline.  Before an event at time `t` runs, a timer whose deadline has
passed fires first (`fireDue`), committing its value through the
`onChange` callback; commits are collected in a list.  JavaScript `===`
on the scheduled values is decidable equality.
-/

/-- The debounce hook state: the pending value and the armed timer
(scheduled value, absolute deadline). -/
structure DebounceState (T : Type) where
  pending : T
  timer : Option (T × ℚ)
deriving DecidableEq

/-- Fire the armed timer if its deadline has passed: the commit callback
runs with the scheduled value and the timer slot is cleared. -/
def fireDue {T : Type} (now : ℚ) (s : DebounceState T) :
    DebounceState T × List T :=
  match s.timer with
  | some (v, deadline) =>
    if deadline ≤ now then ({ pending := s.pending, timer := none }, [v])
    else (s, [])
  | none => (s, [])

/-- `scheduleChange` from `src/hooks.ts`: a value equal to the current
pending value returns immediately (no state change, no timer reset);
otherwise the pending value updates synchronously, any armed timer is
cleared, and a fresh timer is armed for `now + delay` with the new
value. -/
def scheduleChange {T : Type} [DecidableEq T] (delay now : ℚ) (v : T)
    (s : DebounceState T) : DebounceState T :=
  if v = s.pending then s
  else { pending := v, timer := some (v, now + delay) }

/-- Run a sequence of timestamped `scheduleChange` calls on the event
loop: before each call any due timer fires, then the call executes. -/
def runSchedules {T : Type} [DecidableEq T] (delay : ℚ) :
    DebounceState T → List (ℚ × T) → DebounceState T × List T
  | s, [] => (s, [])
  | s, (t, v) :: rest =>
    ((runSchedules delay (scheduleChange delay t v (fireDue t s).1) rest).1,
     (fireDue t s).2 ++
       (runSchedules delay (scheduleChange delay t v (fireDue t s).1)
         rest).2)

/-- Run the schedules, then let time pass to `tEnd` (the quiet interval)
so a still-armed timer may fire. -/
def runThenFlush {T : Type} [DecidableEq T] (delay : ℚ)
    (s : DebounceState T) (events : List (ℚ × T)) (tEnd : ℚ) :
    DebounceState T × List T :=
  ((fireDue tEnd (runSchedules delay s events).1).1,
   (runSchedules delay s events).2 ++
     (fireDue tEnd (runSchedules delay s events).1).2)

/-- Each scheduled value differs from the previously pending one. -/
def chainDistinct {T : Type} : T → List (ℚ × T) → Prop
  | _, [] => True
  | p, (_, v) :: rest => v ≠ p ∧ chainDistinct v rest

/-- Event times are ordered and each gap is shorter than the quiet
interval, starting from time `t`. -/
def tightlySpacedFrom {T : Type} (t delay : ℚ) : List (ℚ × T) → Prop
  | [] => True
  | (t2, _) :: rest => t ≤ t2 ∧ t2 < t + delay ∧ tightlySpacedFrom t2 delay rest

/-- The last scheduled value (default the head value). -/
def lastVal {T : Type} (v : T) : List (ℚ × T) → T
  | [] => v
  | (_, v') :: rest => lastVal v' rest

/-- The last event time (default the head time). -/
def lastTime {T : Type} (t : ℚ) : List (ℚ × T) → ℚ
  | [] => t
  | (t', _) :: rest => lastTime t' rest

lemma run_commits {T : Type} [DecidableEq T] (delay : ℚ) :
    ∀ (rest : List (ℚ × T)) (s : DebounceState T) (t1 : ℚ) (v1 : T)
      (tEnd : ℚ),
      (∀ w d, s.timer = some (w, d) → t1 < d) →
      v1 ≠ s.pending →
      chainDistinct v1 rest →
      tightlySpacedFrom t1 delay rest →
      lastTime t1 rest + delay ≤ tEnd →
      runThenFlush delay s ((t1, v1) :: rest) tEnd =
        ({ pending := lastVal v1 rest, timer := none },
         [lastVal v1 rest]) := by
  intro rest
  induction rest with
  | nil =>
    intro s t1 v1 tEnd htimer hne _ _ hEnd
    have hfire : fireDue t1 s = (s, []) := by
      cases ht : s.timer with
      | none => simp [fireDue, ht]
      | some wd =>
        rcases wd with ⟨w, d⟩
        have hlt := htimer w d ht
        simp [fireDue, ht, not_le.mpr hlt]
    have hsched : scheduleChange delay t1 v1 s =
        { pending := v1, timer := some (v1, t1 + delay) } := by
      simp [scheduleChange, hne]
    have hEnd' : t1 + delay ≤ tEnd := by
      simpa [lastTime] using hEnd
    simp only [runThenFlush, runSchedules, hfire, hsched]
    simp [fireDue, hEnd', lastVal]
  | cons e rest' ih =>
    rcases e with ⟨t2, v2⟩
    intro s t1 v1 tEnd htimer hne hchain hspace hEnd
    obtain ⟨hv2, hchain'⟩ := hchain
    obtain ⟨hle, hgap, hspace'⟩ := hspace
    have hfire : fireDue t1 s = (s, []) := by
      cases ht : s.timer with
      | none => simp [fireDue, ht]
      | some wd =>
        rcases wd with ⟨w, d⟩
        have hlt := htimer w d ht
        simp [fireDue, ht, not_le.mpr hlt]
    have hsched : scheduleChange delay t1 v1 s =
        { pending := v1, timer := some (v1, t1 + delay) } := by
      simp [scheduleChange, hne]
    have hih := ih { pending := v1, timer := some (v1, t1 + delay) }
      t2 v2 tEnd
      (by
        intro w d hw
        injection hw with hw'
        injection hw' with h1 h2
        rw [← h2]
        exact hgap)
      hv2 hchain' hspace'
      (by simpa [lastTime] using hEnd)
    have hrunEq :
        runThenFlush delay s ((t1, v1) :: (t2, v2) :: rest') tEnd =
        runThenFlush delay
          { pending := v1, timer := some (v1, t1 + delay) }
          ((t2, v2) :: rest') tEnd := by
      simp only [runThenFlush, runSchedules, hfire, hsched]
      simp
    rw [hrunEq, hih]
    simp [lastVal, lastTime]

/-- C9: scheduling the currently pending value is a strict no-op (state,
armed timer, and commit stream untouched), and a run of schedule calls
with chained-distinct values, each spaced closer than the quiet interval,
followed by a quiet interval, commits exactly once, with the last
scheduled value. -/
theorem useDebounce_spec :
    (∀ (T : Type) (inst : DecidableEq T) (delay now : ℚ)
        (s : DebounceState T),
      scheduleChange delay now s.pending s = s) ∧
    (∀ (T : Type) (inst : DecidableEq T) (delay : ℚ)
        (rest : List (ℚ × T)) (s : DebounceState T) (t1 : ℚ) (v1 : T)
        (tEnd : ℚ),
      s.timer = none →
      v1 ≠ s.pending →
      chainDistinct v1 rest →
      tightlySpacedFrom t1 delay rest →
      lastTime t1 rest + delay ≤ tEnd →
      runThenFlush delay s ((t1, v1) :: rest) tEnd =
        ({ pending := lastVal v1 rest, timer := none },
         [lastVal v1 rest])) := by
  constructor
  · intro T inst delay now s
    simp [scheduleChange]
  · intro T inst delay rest s t1 v1 tEnd htimer hne hchain hspace hEnd
    exact run_commits delay rest s t1 v1 tEnd
      (by intro w d hw; rw [htimer] at hw; exact absurd hw (by simp))
      hne hchain hspace hEnd

/-- C9 witness: three rapid schedules (gaps under the 200ms quiet
interval) from an idle controller commit exactly once with the final
value, and scheduling the pending value is a no-op. -/
theorem useDebounce_spec_witness :
    runThenFlush (200 : ℚ) ({ pending := 0, timer := none } :
        DebounceState ℤ) [((0 : ℚ), (1 : ℤ)), (100, 2), (150, 3)] 350 =
      ({ pending := 3, timer := none }, [3]) ∧
    scheduleChange (200 : ℚ) 0 (5 : ℤ)
        { pending := 5, timer := none } =
      { pending := 5, timer := none } := by
  constructor
  · have h := useDebounce_spec.2 ℤ inferInstance 200
      [((100 : ℚ), (2 : ℤ)), (150, 3)] { pending := 0, timer := none }
      0 1 350 rfl (by decide)
      ⟨by decide, by decide, trivial⟩
      ⟨by norm_num, by norm_num, by norm_num, by norm_num, trivial⟩
      (by norm_num [lastTime])
    simpa [lastVal] using h
  · exact useDebounce_spec.1 ℤ inferInstance 200 0
      { pending := 5, timer := none }

/-- The embedding-view state touched by a base-point commit: the active
base points and the lasso/click selection. -/
structure EmbeddingUIState where
  basePoints : Option (List EmbeddingPointBase)
  selection : List String

/-- The commit performed by `loadEmbedding` in `CompoundsViewer` on both
the cache-hit and the freshly-fetched path:
`setEmbeddingBasePoints(base)` together with
`setEmbeddingSelection(prev => prev.filter(id =>
base.some(point => point.id === id)))`. -/
def commitEmbeddingBase (base : List EmbeddingPointBase)
    (s : EmbeddingUIState) : EmbeddingUIState :=
  { basePoints := some base
    selection := s.selection.filter
      (fun idv => base.any (fun point => decide (point.id = idv))) }

/-- C10 (implicit invariant): committing a base point set for the active
weight index filters the current selection down to ids that occur among
the committed points — afterwards every selected id names a point of the
active embedding, the selection is an order-preserving subsequence of
the previous one (a commit can only shrink it), and switching to an
embedding lacking a selected id silently drops that id. -/
theorem commitEmbeddingBase_spec :
    (∀ (base : List EmbeddingPointBase) (s : EmbeddingUIState),
      (commitEmbeddingBase base s).basePoints = some base) ∧
    (∀ (base : List EmbeddingPointBase) (s : EmbeddingUIState)
        (idv : String), idv ∈ (commitEmbeddingBase base s).selection →
      ∃ point ∈ base, point.id = idv) ∧
    (∀ (base : List EmbeddingPointBase) (s : EmbeddingUIState),
      ((commitEmbeddingBase base s).selection).Sublist s.selection) ∧
    (∀ (base : List EmbeddingPointBase) (s : EmbeddingUIState)
        (idv : String), idv ∈ (commitEmbeddingBase base s).selection →
      idv ∈ s.selection) ∧
    (commitEmbeddingBase [{ id := "a", x := 0, y := 0 }]
      { basePoints := none, selection := ["a", "b"] }).selection = ["a"] := by
  refine ⟨fun _ _ => rfl, ?_, ?_, ?_, by decide⟩
  · intro base s idv hmem
    have h := List.mem_filter.mp hmem
    have h2 := List.any_eq_true.mp h.2
    obtain ⟨point, hpt, hdec⟩ := h2
    exact ⟨point, hpt, of_decide_eq_true hdec⟩
  · intro base s
    exact List.filter_sublist s.selection
  · intro base s idv hmem
    exact (List.mem_filter.mp hmem).1

/-- C10 witness: the membership clause applied to the concrete shrink
instance (selection ["a", "b"] against an embedding containing only
"a"). -/
theorem commitEmbeddingBase_spec_witness :
    ∃ point ∈ ([{ id := "a", x := 0, y := 0 }] : List EmbeddingPointBase),
      point.id = "a" :=
  commitEmbeddingBase_spec.2.1 [{ id := "a", x := 0, y := 0 }]
    { basePoints := none, selection := ["a", "b"] } "a" (by decide)
